import Mathlib

/-!
Verification of the stock-tracker accounting engine (src/src/App.tsx).

The engine is shallowly embedded over exact rationals: every JavaScript
number of the source becomes a Lean rational, so that the algebraic
identities of the replay can be settled exactly.  The keyed objects
tempHoldings / tempRealized of the source are modelled as partial maps
from ticker strings.  Dates are modelled by their epoch timestamps (the
source orders transactions by new Date(d).getTime()).
-/

namespace StockApp

inductive MarketType
  | TW
  | US
deriving DecidableEq

inductive CurrencyType
  | TWD
  | USD
deriving DecidableEq

inductive TradeType
  | buy
  | sell
deriving DecidableEq

/-- A recorded trade, mirroring interface Transaction of the source. -/
structure Transaction where
  id : String
  date : Int
  ticker : String
  name : String
  type : TradeType
  market : MarketType
  price : ℚ
  shares : ℚ
  isETF : Bool
  fee : ℚ
  tax : ℚ
  totalAmount : ℚ
deriving DecidableEq

/-- The per-ticker open-position accumulator of the replay
(the element type of tempHoldings in the source). -/
structure HoldingAcc where
  ticker : String
  name : String
  market : MarketType
  shares : ℚ
  totalCost : ℚ
  isETF : Bool
deriving DecidableEq

/-- The per-ticker realized accumulator, mirroring interface RealizedItem. -/
structure RealizedItem where
  ticker : String
  name : String
  market : MarketType
  currency : CurrencyType
  realizedPL : ℚ
  totalCost : ℚ
  totalRevenue : ℚ
  roi : ℚ
  tradeCount : Nat
  isETF : Bool
deriving DecidableEq

/-- Fee and tax configuration, mirroring interface AppSettings. -/
structure AppSettings where
  twFeeRate : ℚ
  twDiscount : ℚ
  twTaxRateStock : ℚ
  twTaxRateETF : ℚ
  twMinFee : ℚ
  usFeeRate : ℚ
  usMinFee : ℚ
  usTaxRate : ℚ
deriving DecidableEq

/-- DEFAULT_SETTINGS of the source. -/
def DEFAULT_SETTINGS : AppSettings :=
  { twFeeRate := 0.001425
    twDiscount := 0.6
    twTaxRateStock := 0.003
    twTaxRateETF := 0.001
    twMinFee := 20
    usFeeRate := 0.001
    usMinFee := 0
    usTaxRate := 0.000008 }

/-- The near-zero threshold 0.000001 used by the replay normalization. -/
def epsilon : ℚ := 1 / 1000000

/-- Fresh open-position accumulator, as initialized on first sight of a
ticker (shares 0, totalCost 0, seeded with the transaction's metadata). -/
def initHolding (t : Transaction) : HoldingAcc :=
  { ticker := t.ticker
    name := t.name
    market := t.market
    shares := 0
    totalCost := 0
    isETF := t.isETF }

/-- Fresh realized accumulator, as initialized on first sight of a ticker. -/
def initRealized (t : Transaction) : RealizedItem :=
  { ticker := t.ticker
    name := t.name
    market := t.market
    currency := if t.market = MarketType.TW then CurrencyType.TWD else CurrencyType.USD
    realizedPL := 0
    totalCost := 0
    totalRevenue := 0
    roi := 0
    tradeCount := 0
    isETF := t.isETF }

/-- The buy / sell update of the two accumulators (lines 189-206 of the
source): a buy capitalizes the settlement amount into the cost pool; a
sell, only while shares are positive, retires cost at the running
weighted-average cost and accumulates the realized figures. -/
def applyTrade (h : HoldingAcc) (r : RealizedItem) (t : Transaction) :
    HoldingAcc × RealizedItem :=
  match t.type with
  | TradeType.buy =>
      ({ h with totalCost := h.totalCost + t.totalAmount, shares := h.shares + t.shares }, r)
  | TradeType.sell =>
      if 0 < h.shares then
        let avgCost := h.totalCost / h.shares
        let costOfSoldShares := avgCost * t.shares
        let realizedAmount := t.totalAmount - costOfSoldShares
        ({ h with totalCost := h.totalCost - costOfSoldShares, shares := h.shares - t.shares },
         { r with
            realizedPL := r.realizedPL + realizedAmount,
            totalCost := r.totalCost + costOfSoldShares,
            totalRevenue := r.totalRevenue + t.totalAmount,
            tradeCount := r.tradeCount + 1 })
      else (h, r)

/-- The epsilon normalization (lines 208-211 of the source): a share
count within 0.000001 of zero resets both shares and totalCost to 0. -/
def normalizeHolding (h : HoldingAcc) : HoldingAcc :=
  if h.shares ≤ epsilon then { h with shares := 0, totalCost := 0 } else h

/-- The replay state: the keyed objects tempHoldings and tempRealized,
modelled as partial maps from ticker. -/
structure ReplayState where
  tempHoldings : String → Option HoldingAcc
  tempRealized : String → Option RealizedItem

/-- Current open-position accumulator for a transaction's ticker, lazily
initialized on first sight (the init blocks of the replay loop). -/
def holdAt (s : ReplayState) (t : Transaction) : HoldingAcc :=
  (s.tempHoldings t.ticker).getD (initHolding t)

/-- Current realized accumulator for a transaction's ticker, lazily
initialized on first sight. -/
def realAt (s : ReplayState) (t : Transaction) : RealizedItem :=
  (s.tempRealized t.ticker).getD (initRealized t)

/-- One iteration of the replay loop (lines 157-212 of the source):
initialize the ticker's accumulators if absent, apply the trade, then
normalize the share count. -/
def processTransaction (s : ReplayState) (t : Transaction) : ReplayState :=
  let hr := applyTrade (holdAt s t) (realAt s t) t
  let h2 := normalizeHolding hr.1
  { tempHoldings := fun tk => if tk = t.ticker then some h2 else s.tempHoldings tk
    tempRealized := fun tk => if tk = t.ticker then some hr.2 else s.tempRealized tk }

/-- The empty replay state (both keyed objects start empty). -/
def initialState : ReplayState :=
  { tempHoldings := fun _ => none
    tempRealized := fun _ => none }

/-- Replay a list of transactions, in the order given, from the empty state. -/
def replayList (ts : List Transaction) : ReplayState :=
  ts.foldl processTransaction initialState

/-- Chronological order used by the replay: ascending epoch time of the date. -/
def dateLe (a b : Transaction) : Prop :=
  a.date ≤ b.date

instance : DecidableRel dateLe := fun a b =>
  inferInstanceAs (Decidable (a.date ≤ b.date))

instance : IsTotal Transaction dateLe :=
  ⟨fun a b => Int.le_total a.date b.date⟩

instance : IsTrans Transaction dateLe :=
  ⟨fun _ _ _ hab hbc => le_trans hab hbc⟩

/-- The sorted copy of the log (line 155 of the source): a stable sort by
ascending date, leaving the input list untouched.  Stable sorting is
modelled by insertion sort. -/
def sortedTrans (ts : List Transaction) : List Transaction :=
  List.insertionSort dateLe ts

/-- The full derivation pass: sort chronologically, then replay. -/
def replayAll (ts : List Transaction) : ReplayState :=
  replayList (sortedTrans ts)

/-- Open shares of a ticker in a replay state (0 when the ticker is unseen). -/
def hShares (s : ReplayState) (tk : String) : ℚ :=
  match s.tempHoldings tk with
  | some h => h.shares
  | none => 0

/-- Open cost basis of a ticker in a replay state (0 when unseen). -/
def hCost (s : ReplayState) (tk : String) : ℚ :=
  match s.tempHoldings tk with
  | some h => h.totalCost
  | none => 0

/-- Cumulative realized profit of a ticker (0 when unseen). -/
def rPL (s : ReplayState) (tk : String) : ℚ :=
  match s.tempRealized tk with
  | some r => r.realizedPL
  | none => 0

/-- Cumulative cost retired by sells of a ticker (0 when unseen). -/
def rCostRetired (s : ReplayState) (tk : String) : ℚ :=
  match s.tempRealized tk with
  | some r => r.totalCost
  | none => 0

/-- Cumulative sell settlement received for a ticker (0 when unseen). -/
def rRevenue (s : ReplayState) (tk : String) : ℚ :=
  match s.tempRealized tk with
  | some r => r.totalRevenue
  | none => 0

/-- Count of cost-retiring sells of a ticker (0 when unseen). -/
def rCount (s : ReplayState) (tk : String) : Nat :=
  match s.tempRealized tk with
  | some r => r.tradeCount
  | none => 0

/-- Result of the fee / tax calculator. -/
structure CalcResult where
  fee : ℚ
  tax : ℚ
  total : ℚ
deriving DecidableEq

/-- calculateTransactionAmount of the source (lines 291-311): fee, tax and
settlement amount of a trade under the two market regimes. -/
def calculateTransactionAmount (s : AppSettings) (type : TradeType) (market : MarketType)
    (price shares : ℚ) (isETF : Bool) : CalcResult :=
  let rawAmount := price * shares
  let fee : ℚ :=
    if market = MarketType.TW then
      max s.twMinFee ((⌊rawAmount * s.twFeeRate * s.twDiscount⌋ : ℤ) : ℚ)
    else
      max s.usMinFee (rawAmount * s.usFeeRate)
  let tax : ℚ :=
    if market = MarketType.TW then
      if type = TradeType.sell then
        ((⌊rawAmount * (if isETF then s.twTaxRateETF else s.twTaxRateStock)⌋ : ℤ) : ℚ)
      else 0
    else
      if type = TradeType.sell then rawAmount * s.usTaxRate else 0
  let total : ℚ :=
    if type = TradeType.buy then rawAmount + fee else rawAmount - fee - tax
  { fee := fee, tax := tax, total := total }

/-- Estimated liquidation fee for a visible holding (lines 220-229 of the
source), computed at the manual current price and the full position size. -/
def estSellFee (s : AppSettings) (market : MarketType) (currentPrice shares : ℚ)
    (_isETF : Bool) : ℚ :=
  if market = MarketType.TW then
    max s.twMinFee ((⌊currentPrice * shares * s.twFeeRate * s.twDiscount⌋ : ℤ) : ℚ)
  else
    max s.usMinFee (currentPrice * shares * s.usFeeRate)

/-- Estimated liquidation tax for a visible holding (lines 220-229). -/
def estSellTax (s : AppSettings) (market : MarketType) (currentPrice shares : ℚ)
    (isETF : Bool) : ℚ :=
  if market = MarketType.TW then
    ((⌊currentPrice * shares * (if isETF then s.twTaxRateETF else s.twTaxRateStock)⌋ : ℤ) : ℚ)
  else
    currentPrice * shares * s.usTaxRate

/-- A visible holding after valuation, mirroring interface Holding. -/
structure Holding where
  ticker : String
  name : String
  market : MarketType
  currency : CurrencyType
  shares : ℚ
  avgCost : ℚ
  totalCost : ℚ
  marketValue : ℚ
  unrealizedPL : ℚ
  roi : ℚ
  isETF : Bool
deriving DecidableEq

/-- The valuation map applied to each surviving accumulator to build
finalHoldings (lines 216-243 of the source).  The JS lookup
manualPrices[ticker] with fallback 0 is modelled by getD 0. -/
def finalizeHolding (s : AppSettings) (manualPrices : String → Option ℚ)
    (h : HoldingAcc) : Holding :=
  let currentPrice := (manualPrices h.ticker).getD 0
  let avgCost := if 0 < h.shares then h.totalCost / h.shares else 0
  let fee := estSellFee s h.market currentPrice h.shares h.isETF
  let tax := estSellTax s h.market currentPrice h.shares h.isETF
  let marketValue := currentPrice * h.shares - fee - tax
  let unrealizedPL := marketValue - h.totalCost
  let roi := if 0 < h.totalCost then unrealizedPL / h.totalCost * 100 else 0
  { ticker := h.ticker
    name := h.name
    market := h.market
    currency := if h.market = MarketType.TW then CurrencyType.TWD else CurrencyType.USD
    shares := h.shares
    avgCost := avgCost
    totalCost := h.totalCost
    marketValue := marketValue
    unrealizedPL := unrealizedPL
    roi := roi
    isETF := h.isETF }

/-- Numeric value of a list of decimal digit characters. -/
def digitsVal (l : List Char) : Nat :=
  l.foldl (fun n c => n * 10 + (c.toNat - 48)) 0

/-- Model of the JavaScript builtin parseFloat, restricted to the
optional-sign decimal numerals that the number inputs of the form can
produce (an optional sign, integer digits, an optional fraction).
Strings outside this fragment are not produced by the inputs. -/
def jsParseFloat (str : String) : ℚ :=
  let chars := str.data
  let sgn : ℚ := if chars.headD ' ' = '-' then -1 else 1
  let rest := if chars.headD ' ' = '-' ∨ chars.headD ' ' = '+' then chars.tail else chars
  let intPart := rest.takeWhile Char.isDigit
  let afterInt := rest.dropWhile Char.isDigit
  let fracPart :=
    match afterInt with
    | '.' :: more => more.takeWhile Char.isDigit
    | _ => []
  sgn * ((digitsVal intPart : ℚ) + (digitsVal fracPart : ℚ) / (10 : ℚ) ^ fracPart.length)

/-- The transaction-creation form: the numeric fields hold the raw input
strings, as in the source's form state. -/
structure TransactionForm where
  date : Int
  ticker : String
  name : String
  type : TradeType
  market : MarketType
  price : String
  shares : String
  isETF : Bool
deriving DecidableEq

/-- handleAddTransaction of the source (lines 313-340): reject the
submission when the ticker, price or shares string is empty (JS falsiness
of a string), otherwise parse the numeric fields, compute fee / tax /
settlement, append the new transaction, and on a buy overwrite the manual
price entry of the (upper-cased) ticker with the trade price.  The
Date.now()-based id is supplied by the caller as nextId. -/
def handleAddTransaction (s : AppSettings) (form : TransactionForm) (nextId : String)
    (transactions : List Transaction) (manualPrices : String → Option ℚ) :
    List Transaction × (String → Option ℚ) :=
  if form.ticker = "" ∨ form.price = "" ∨ form.shares = "" then
    (transactions, manualPrices)
  else
    let priceNum := jsParseFloat form.price
    let sharesNum := jsParseFloat form.shares
    let c := calculateTransactionAmount s form.type form.market priceNum sharesNum form.isETF
    let newTrans : Transaction :=
      { id := nextId
        date := form.date
        ticker := form.ticker.toUpper
        name := if form.name = "" then form.ticker.toUpper else form.name
        type := form.type
        market := form.market
        price := priceNum
        shares := sharesNum
        isETF := form.isETF
        fee := c.fee
        tax := c.tax
        totalAmount := c.total }
    (transactions ++ [newTrans],
     if form.type = TradeType.buy then
       fun tk => if tk = newTrans.ticker then some priceNum else manualPrices tk
     else manualPrices)

/-- Running share total of a ticker's transactions (used to state the
buy-only conservation property). -/
def tickerShares (tk : String) (l : List Transaction) : ℚ :=
  ((l.filter (fun t => t.ticker == tk)).map (fun t => t.shares)).sum

/-- Running settlement total of a ticker's transactions. -/
def tickerAmounts (tk : String) (l : List Transaction) : ℚ :=
  ((l.filter (fun t => t.ticker == tk)).map (fun t => t.totalAmount)).sum

/-! ### Concrete inputs used by witnesses and counterexamples -/

/-- An open position of 10 shares with cost basis 1000. -/
def hEx : HoldingAcc :=
  { ticker := "A", name := "A", market := MarketType.TW, shares := 10,
    totalCost := 1000, isETF := false }

/-- A concrete realized accumulator. -/
def rEx : RealizedItem :=
  { ticker := "A", name := "A", market := MarketType.TW, currency := CurrencyType.TWD,
    realizedPL := 7, totalCost := 3, totalRevenue := 11, roi := 0,
    tradeCount := 1, isETF := false }

/-- A concrete sell of 4 shares settling at 450. -/
def tEx : Transaction :=
  { id := "1", date := 0, ticker := "A", name := "A", type := TradeType.sell,
    market := MarketType.TW, price := 120, shares := 4, isETF := false,
    fee := 0, tax := 0, totalAmount := 450 }

/-- A concrete manual price map holding a price for ticker A. -/
def pricesEx : String → Option ℚ :=
  fun tk => if tk = "A" then some 50 else none

/-- A form whose price string parses to the non-positive number 0, yet
passes the guard because the string is non-empty. -/
def formBad : TransactionForm :=
  { date := 0, ticker := "A", name := "", type := TradeType.buy,
    market := MarketType.TW, price := "0", shares := "1", isETF := false }

/-- A form with an empty ticker, rejected by the guard. -/
def formEmpty : TransactionForm :=
  { date := 0, ticker := "", name := "", type := TradeType.buy,
    market := MarketType.TW, price := "1", shares := "1", isETF := false }

/-- A concrete well-filled buy form. -/
def formBuy : TransactionForm :=
  { date := 0, ticker := "aapl", name := "", type := TradeType.buy,
    market := MarketType.US, price := "12.5", shares := "2", isETF := false }

/-- The reopen scenario of the spec: buy 10 at total cost 1000, sell 10
at net proceeds 1200, buy 10 at total cost 900, sell 10 at net proceeds
800, all on ticker B. -/
def exC7 : List Transaction :=
  [{ id := "1", date := 1, ticker := "B", name := "B", type := TradeType.buy,
     market := MarketType.TW, price := 100, shares := 10, isETF := false,
     fee := 0, tax := 0, totalAmount := 1000 },
   { id := "2", date := 2, ticker := "B", name := "B", type := TradeType.sell,
     market := MarketType.TW, price := 120, shares := 10, isETF := false,
     fee := 0, tax := 0, totalAmount := 1200 },
   { id := "3", date := 3, ticker := "B", name := "B", type := TradeType.buy,
     market := MarketType.TW, price := 90, shares := 10, isETF := false,
     fee := 0, tax := 0, totalAmount := 900 },
   { id := "4", date := 4, ticker := "B", name := "B", type := TradeType.sell,
     market := MarketType.TW, price := 80, shares := 10, isETF := false,
     fee := 0, tax := 0, totalAmount := 800 }]

/-- A concrete buy of 10 shares at total cost 1000 on ticker A. -/
def tBuyEx : Transaction :=
  { id := "5", date := 0, ticker := "A", name := "A", type := TradeType.buy,
    market := MarketType.TW, price := 100, shares := 10, isETF := false,
    fee := 0, tax := 0, totalAmount := 1000 }

/-- A buy of 0.0000001 shares: its cumulative share count never exceeds
the epsilon threshold, so the replay normalization zeroes the position. -/
def tTiny : Transaction :=
  { id := "t", date := 0, ticker := "C", name := "C", type := TradeType.buy,
    market := MarketType.TW, price := 1, shares := 1 / 10000000, isETF := false,
    fee := 0, tax := 0, totalAmount := 5 }

/-! ### Helper lemmas about the replay step -/

theorem holdAt_shares (s : ReplayState) (t : Transaction) :
    (holdAt s t).shares = hShares s t.ticker := by
  cases h : s.tempHoldings t.ticker <;> simp [holdAt, hShares, initHolding, h]

theorem holdAt_cost (s : ReplayState) (t : Transaction) :
    (holdAt s t).totalCost = hCost s t.ticker := by
  cases h : s.tempHoldings t.ticker <;> simp [holdAt, hCost, initHolding, h]

theorem realAt_pl (s : ReplayState) (t : Transaction) :
    (realAt s t).realizedPL = rPL s t.ticker := by
  cases h : s.tempRealized t.ticker <;> simp [realAt, rPL, initRealized, h]

theorem realAt_cost (s : ReplayState) (t : Transaction) :
    (realAt s t).totalCost = rCostRetired s t.ticker := by
  cases h : s.tempRealized t.ticker <;> simp [realAt, rCostRetired, initRealized, h]

theorem realAt_rev (s : ReplayState) (t : Transaction) :
    (realAt s t).totalRevenue = rRevenue s t.ticker := by
  cases h : s.tempRealized t.ticker <;> simp [realAt, rRevenue, initRealized, h]

theorem realAt_count (s : ReplayState) (t : Transaction) :
    (realAt s t).tradeCount = rCount s t.ticker := by
  cases h : s.tempRealized t.ticker <;> simp [realAt, rCount, initRealized, h]

theorem normalizeHolding_shares (h : HoldingAcc) :
    (normalizeHolding h).shares = if h.shares ≤ epsilon then 0 else h.shares := by
  by_cases hc : h.shares ≤ epsilon <;> simp [normalizeHolding, hc]

theorem normalizeHolding_cost (h : HoldingAcc) :
    (normalizeHolding h).totalCost = if h.shares ≤ epsilon then 0 else h.totalCost := by
  by_cases hc : h.shares ≤ epsilon <;> simp [normalizeHolding, hc]

theorem tempHoldings_process_ne (s : ReplayState) (t : Transaction) (tk : String)
    (hne : tk ≠ t.ticker) :
    (processTransaction s t).tempHoldings tk = s.tempHoldings tk := by
  simp [processTransaction, hne]

theorem tempRealized_process_ne (s : ReplayState) (t : Transaction) (tk : String)
    (hne : tk ≠ t.ticker) :
    (processTransaction s t).tempRealized tk = s.tempRealized tk := by
  simp [processTransaction, hne]

theorem hShares_process_ne (s : ReplayState) (t : Transaction) (tk : String)
    (hne : tk ≠ t.ticker) :
    hShares (processTransaction s t) tk = hShares s tk := by
  simp [hShares, tempHoldings_process_ne s t tk hne]

theorem hCost_process_ne (s : ReplayState) (t : Transaction) (tk : String)
    (hne : tk ≠ t.ticker) :
    hCost (processTransaction s t) tk = hCost s tk := by
  simp [hCost, tempHoldings_process_ne s t tk hne]

theorem rPL_process_ne (s : ReplayState) (t : Transaction) (tk : String)
    (hne : tk ≠ t.ticker) :
    rPL (processTransaction s t) tk = rPL s tk := by
  simp [rPL, tempRealized_process_ne s t tk hne]

theorem rCostRetired_process_ne (s : ReplayState) (t : Transaction) (tk : String)
    (hne : tk ≠ t.ticker) :
    rCostRetired (processTransaction s t) tk = rCostRetired s tk := by
  simp [rCostRetired, tempRealized_process_ne s t tk hne]

theorem rRevenue_process_ne (s : ReplayState) (t : Transaction) (tk : String)
    (hne : tk ≠ t.ticker) :
    rRevenue (processTransaction s t) tk = rRevenue s tk := by
  simp [rRevenue, tempRealized_process_ne s t tk hne]

theorem rCount_process_ne (s : ReplayState) (t : Transaction) (tk : String)
    (hne : tk ≠ t.ticker) :
    rCount (processTransaction s t) tk = rCount s tk := by
  simp [rCount, tempRealized_process_ne s t tk hne]

theorem hShares_process_self (s : ReplayState) (t : Transaction) :
    hShares (processTransaction s t) t.ticker
      = (normalizeHolding (applyTrade (holdAt s t) (realAt s t) t).1).shares := by
  simp [processTransaction, hShares]

theorem hCost_process_self (s : ReplayState) (t : Transaction) :
    hCost (processTransaction s t) t.ticker
      = (normalizeHolding (applyTrade (holdAt s t) (realAt s t) t).1).totalCost := by
  simp [processTransaction, hCost]

theorem rPL_process_self (s : ReplayState) (t : Transaction) :
    rPL (processTransaction s t) t.ticker
      = (applyTrade (holdAt s t) (realAt s t) t).2.realizedPL := by
  simp [processTransaction, rPL]

theorem rCostRetired_process_self (s : ReplayState) (t : Transaction) :
    rCostRetired (processTransaction s t) t.ticker
      = (applyTrade (holdAt s t) (realAt s t) t).2.totalCost := by
  simp [processTransaction, rCostRetired]

theorem rRevenue_process_self (s : ReplayState) (t : Transaction) :
    rRevenue (processTransaction s t) t.ticker
      = (applyTrade (holdAt s t) (realAt s t) t).2.totalRevenue := by
  simp [processTransaction, rRevenue]

theorem rCount_process_self (s : ReplayState) (t : Transaction) :
    rCount (processTransaction s t) t.ticker
      = (applyTrade (holdAt s t) (realAt s t) t).2.tradeCount := by
  simp [processTransaction, rCount]

theorem applyTrade_buy (h : HoldingAcc) (r : RealizedItem) (t : Transaction)
    (hb : t.type = TradeType.buy) :
    applyTrade h r t
      = ({ h with totalCost := h.totalCost + t.totalAmount, shares := h.shares + t.shares }, r) := by
  simp [applyTrade, hb]

theorem applyTrade_sell_pos (h : HoldingAcc) (r : RealizedItem) (t : Transaction)
    (hsell : t.type = TradeType.sell) (hpos : 0 < h.shares) :
    applyTrade h r t
      = ({ h with
            totalCost := h.totalCost - h.totalCost / h.shares * t.shares,
            shares := h.shares - t.shares },
         { r with
            realizedPL := r.realizedPL + (t.totalAmount - h.totalCost / h.shares * t.shares),
            totalCost := r.totalCost + h.totalCost / h.shares * t.shares,
            totalRevenue := r.totalRevenue + t.totalAmount,
            tradeCount := r.tradeCount + 1 }) := by
  simp [applyTrade, hsell, if_pos hpos]

theorem applyTrade_sell_nonpos (h : HoldingAcc) (r : RealizedItem) (t : Transaction)
    (hsell : t.type = TradeType.sell) (hnp : ¬ 0 < h.shares) :
    applyTrade h r t = (h, r) := by
  simp [applyTrade, hsell, if_neg hnp]

/-! ### C1: the weighted-average retirement step of a sell -/

/-- C1: a sell processed while the position's shares are positive performs
exactly the weighted-average retirement: with avgCost = totalCost/shares
and costRetired = avgCost * tradeShares, it subtracts costRetired from the
cost basis and the trade shares from the share count, adds
(settlement - costRetired) to realizedPL, costRetired to the retired-cost
total, the settlement to revenue, and 1 to tradeCount; consequently
costRetired plus the new cost basis equals the previous cost basis and the
realized gain of the sell is settlement - costRetired. -/
theorem sell_retirement_step_C1 (h : HoldingAcc) (r : RealizedItem) (t : Transaction)
    (hsell : t.type = TradeType.sell) (hpos : 0 < h.shares) :
    (applyTrade h r t).1.totalCost = h.totalCost - h.totalCost / h.shares * t.shares ∧
    (applyTrade h r t).1.shares = h.shares - t.shares ∧
    (applyTrade h r t).2.realizedPL
      = r.realizedPL + (t.totalAmount - h.totalCost / h.shares * t.shares) ∧
    (applyTrade h r t).2.totalCost = r.totalCost + h.totalCost / h.shares * t.shares ∧
    (applyTrade h r t).2.totalRevenue = r.totalRevenue + t.totalAmount ∧
    (applyTrade h r t).2.tradeCount = r.tradeCount + 1 ∧
    h.totalCost / h.shares * t.shares + (applyTrade h r t).1.totalCost = h.totalCost ∧
    (applyTrade h r t).2.realizedPL - r.realizedPL
      = t.totalAmount - h.totalCost / h.shares * t.shares := by
  rw [applyTrade_sell_pos h r t hsell hpos]
  refine ⟨rfl, rfl, rfl, rfl, rfl, rfl, by ring, by ring⟩

/-- C1 witness: the retirement step evaluated at a concrete sell of 4 of
10 held shares with cost basis 1000 (avgCost 100, costRetired 400). -/
theorem sell_retirement_step_C1_witness :
    0 < hEx.shares ∧
    ((applyTrade hEx rEx tEx).1.totalCost
        = hEx.totalCost - hEx.totalCost / hEx.shares * tEx.shares ∧
      (applyTrade hEx rEx tEx).1.shares = hEx.shares - tEx.shares ∧
      (applyTrade hEx rEx tEx).2.realizedPL
        = rEx.realizedPL + (tEx.totalAmount - hEx.totalCost / hEx.shares * tEx.shares) ∧
      (applyTrade hEx rEx tEx).2.totalCost
        = rEx.totalCost + hEx.totalCost / hEx.shares * tEx.shares ∧
      (applyTrade hEx rEx tEx).2.totalRevenue = rEx.totalRevenue + tEx.totalAmount ∧
      (applyTrade hEx rEx tEx).2.tradeCount = rEx.tradeCount + 1 ∧
      hEx.totalCost / hEx.shares * tEx.shares + (applyTrade hEx rEx tEx).1.totalCost
        = hEx.totalCost ∧
      (applyTrade hEx rEx tEx).2.realizedPL - rEx.realizedPL
        = tEx.totalAmount - hEx.totalCost / hEx.shares * tEx.shares) :=
  ⟨by decide, sell_retirement_step_C1 hEx rEx tEx rfl (by decide)⟩

/-! ### C2: the fee / tax calculator formulas -/

/-- C2: for every side, market, positive price and shares, fund-like flag
and configuration, the calculator returns the domestic floored fee and
sell-only floored tax, the foreign unrounded fee and sell-only levy, and a
settlement of gross + fee on a buy and gross - fee - tax on a sell. -/
theorem calc_formulas_C2 (s : AppSettings) (ty : TradeType) (mk : MarketType)
    (price shares : ℚ) (isETF : Bool) (hp : 0 < price) (hs : 0 < shares) :
    (mk = MarketType.TW →
      (calculateTransactionAmount s ty mk price shares isETF).fee
        = max s.twMinFee ((⌊price * shares * s.twFeeRate * s.twDiscount⌋ : ℤ) : ℚ) ∧
      (calculateTransactionAmount s ty mk price shares isETF).tax
        = (if ty = TradeType.sell then
            ((⌊price * shares * (if isETF then s.twTaxRateETF else s.twTaxRateStock)⌋ : ℤ) : ℚ)
           else 0)) ∧
    (mk = MarketType.US →
      (calculateTransactionAmount s ty mk price shares isETF).fee
        = max s.usMinFee (price * shares * s.usFeeRate) ∧
      (calculateTransactionAmount s ty mk price shares isETF).tax
        = (if ty = TradeType.sell then price * shares * s.usTaxRate else 0)) ∧
    (calculateTransactionAmount s ty mk price shares isETF).total
      = (if ty = TradeType.buy then
          price * shares + (calculateTransactionAmount s ty mk price shares isETF).fee
         else
          price * shares - (calculateTransactionAmount s ty mk price shares isETF).fee
            - (calculateTransactionAmount s ty mk price shares isETF).tax) := by
  cases mk <;> cases ty <;> simp [calculateTransactionAmount]

/-- C2 witness: the calculator at default settings, domestic sell of 1000
shares at price 100 (the reference fee-flooring example of the spec). -/
theorem calc_formulas_C2_witness :
    0 < (100 : ℚ) ∧ 0 < (1000 : ℚ) ∧
    ((MarketType.TW = MarketType.TW →
      (calculateTransactionAmount DEFAULT_SETTINGS TradeType.sell MarketType.TW
          100 1000 false).fee
        = max DEFAULT_SETTINGS.twMinFee
            ((⌊(100 : ℚ) * 1000 * DEFAULT_SETTINGS.twFeeRate * DEFAULT_SETTINGS.twDiscount⌋
                : ℤ) : ℚ) ∧
      (calculateTransactionAmount DEFAULT_SETTINGS TradeType.sell MarketType.TW
          100 1000 false).tax
        = (if TradeType.sell = TradeType.sell then
            ((⌊(100 : ℚ) * 1000 *
                (if false then DEFAULT_SETTINGS.twTaxRateETF
                 else DEFAULT_SETTINGS.twTaxRateStock)⌋ : ℤ) : ℚ)
           else 0)) ∧
    (MarketType.TW = MarketType.US →
      (calculateTransactionAmount DEFAULT_SETTINGS TradeType.sell MarketType.TW
          100 1000 false).fee
        = max DEFAULT_SETTINGS.usMinFee ((100 : ℚ) * 1000 * DEFAULT_SETTINGS.usFeeRate) ∧
      (calculateTransactionAmount DEFAULT_SETTINGS TradeType.sell MarketType.TW
          100 1000 false).tax
        = (if TradeType.sell = TradeType.sell then (100 : ℚ) * 1000 * DEFAULT_SETTINGS.usTaxRate
           else 0)) ∧
    (calculateTransactionAmount DEFAULT_SETTINGS TradeType.sell MarketType.TW
        100 1000 false).total
      = (if TradeType.sell = TradeType.buy then
          (100 : ℚ) * 1000
            + (calculateTransactionAmount DEFAULT_SETTINGS TradeType.sell MarketType.TW
                100 1000 false).fee
         else
          (100 : ℚ) * 1000
            - (calculateTransactionAmount DEFAULT_SETTINGS TradeType.sell MarketType.TW
                100 1000 false).fee
            - (calculateTransactionAmount DEFAULT_SETTINGS TradeType.sell MarketType.TW
                100 1000 false).tax)) :=
  ⟨by decide, by decide,
    calc_formulas_C2 DEFAULT_SETTINGS TradeType.sell MarketType.TW 100 1000 false
      (by decide) (by decide)⟩

/-! ### C8: holding valuation agrees with the calculator in sell mode -/

/-- C8: for a visible holding (positive shares) the estimated liquidation
fee and tax equal exactly what the fee / tax calculator returns in sell
mode at the manual current price (default 0 when absent) and the full
position size, so marketValue = currentPrice * shares - fee - tax (which
is the calculator's sell settlement) and unrealizedPL =
marketValue - totalCostBasis. -/
theorem valuation_matches_calculator_C8 (cfg : AppSettings) (prices : String → Option ℚ)
    (h : HoldingAcc) (hpos : 0 < h.shares) :
    estSellFee cfg h.market ((prices h.ticker).getD 0) h.shares h.isETF
      = (calculateTransactionAmount cfg TradeType.sell h.market
          ((prices h.ticker).getD 0) h.shares h.isETF).fee ∧
    estSellTax cfg h.market ((prices h.ticker).getD 0) h.shares h.isETF
      = (calculateTransactionAmount cfg TradeType.sell h.market
          ((prices h.ticker).getD 0) h.shares h.isETF).tax ∧
    (finalizeHolding cfg prices h).marketValue
      = (prices h.ticker).getD 0 * h.shares
          - (calculateTransactionAmount cfg TradeType.sell h.market
              ((prices h.ticker).getD 0) h.shares h.isETF).fee
          - (calculateTransactionAmount cfg TradeType.sell h.market
              ((prices h.ticker).getD 0) h.shares h.isETF).tax ∧
    (finalizeHolding cfg prices h).marketValue
      = (calculateTransactionAmount cfg TradeType.sell h.market
          ((prices h.ticker).getD 0) h.shares h.isETF).total ∧
    (finalizeHolding cfg prices h).unrealizedPL
      = (finalizeHolding cfg prices h).marketValue - h.totalCost := by
  cases hm : h.market <;>
    simp [estSellFee, estSellTax, calculateTransactionAmount, finalizeHolding, hm]

/-- C8 witness: the valuation identities at default settings, a manual
price of 50 for ticker A, and the 10-share position hEx. -/
theorem valuation_matches_calculator_C8_witness :
    0 < hEx.shares ∧
    (estSellFee DEFAULT_SETTINGS hEx.market ((pricesEx hEx.ticker).getD 0) hEx.shares hEx.isETF
      = (calculateTransactionAmount DEFAULT_SETTINGS TradeType.sell hEx.market
          ((pricesEx hEx.ticker).getD 0) hEx.shares hEx.isETF).fee ∧
    estSellTax DEFAULT_SETTINGS hEx.market ((pricesEx hEx.ticker).getD 0) hEx.shares hEx.isETF
      = (calculateTransactionAmount DEFAULT_SETTINGS TradeType.sell hEx.market
          ((pricesEx hEx.ticker).getD 0) hEx.shares hEx.isETF).tax ∧
    (finalizeHolding DEFAULT_SETTINGS pricesEx hEx).marketValue
      = (pricesEx hEx.ticker).getD 0 * hEx.shares
          - (calculateTransactionAmount DEFAULT_SETTINGS TradeType.sell hEx.market
              ((pricesEx hEx.ticker).getD 0) hEx.shares hEx.isETF).fee
          - (calculateTransactionAmount DEFAULT_SETTINGS TradeType.sell hEx.market
              ((pricesEx hEx.ticker).getD 0) hEx.shares hEx.isETF).tax ∧
    (finalizeHolding DEFAULT_SETTINGS pricesEx hEx).marketValue
      = (calculateTransactionAmount DEFAULT_SETTINGS TradeType.sell hEx.market
          ((pricesEx hEx.ticker).getD 0) hEx.shares hEx.isETF).total ∧
    (finalizeHolding DEFAULT_SETTINGS pricesEx hEx).unrealizedPL
      = (finalizeHolding DEFAULT_SETTINGS pricesEx hEx).marketValue - hEx.totalCost) :=
  ⟨by decide, valuation_matches_calculator_C8 DEFAULT_SETTINGS pricesEx hEx (by decide)⟩

/-! ### C5: the input-boundary guard only rejects empty strings -/

/-- C5 counterexample: a submission whose price field parses to the
non-positive number 0 is NOT rejected — the transaction log grows, a
Transaction is constructed, contradicting the claim that non-positive
price input is rejected at the boundary. -/
theorem invalid_input_not_rejected_C5_cex :
    jsParseFloat formBad.price ≤ 0 ∧
    (handleAddTransaction DEFAULT_SETTINGS formBad "1" [] (fun _ => none)).1
      ≠ ([] : List Transaction) := by
  constructor
  · simp +decide [formBad, jsParseFloat, digitsVal]
  · simp +decide [handleAddTransaction, formBad]

/-- C5 amended: a submission is rejected (log and price map unchanged)
exactly when the ticker, price or shares field is the empty string; any
submission with all three fields non-empty appends one constructed
Transaction, even when the numeric fields parse to a non-positive value. -/
theorem guard_empty_fields_C5_amended (cfg : AppSettings) (form : TransactionForm)
    (nid : String) (ts : List Transaction) (prices : String → Option ℚ) :
    ((form.ticker = "" ∨ form.price = "" ∨ form.shares = "") →
      handleAddTransaction cfg form nid ts prices = (ts, prices)) ∧
    (¬ (form.ticker = "" ∨ form.price = "" ∨ form.shares = "") →
      (handleAddTransaction cfg form nid ts prices).1.length = ts.length + 1) := by
  constructor
  · intro hg
    simp [handleAddTransaction, hg]
  · intro hg
    simp [handleAddTransaction, hg]

/-- C5 witness: an empty-ticker form is a no-op, and the non-empty form
with price string 0 appends one transaction. -/
theorem guard_empty_fields_C5_witness :
    handleAddTransaction DEFAULT_SETTINGS formEmpty "1" [] (fun _ => none)
      = (([] : List Transaction), (fun _ => none : String → Option ℚ)) ∧
    (handleAddTransaction DEFAULT_SETTINGS formBad "1" [] (fun _ => none)).1.length
      = List.length ([] : List Transaction) + 1 :=
  ⟨(guard_empty_fields_C5_amended DEFAULT_SETTINGS formEmpty "1" [] (fun _ => none)).1
      (Or.inl rfl),
   (guard_empty_fields_C5_amended DEFAULT_SETTINGS formBad "1" [] (fun _ => none)).2
      (by decide)⟩

/-! ### C10: a buy overwrites the manual price entry, a sell does not -/

/-- C10: an accepted submission that is a buy overwrites the manual
current-price entry of the (upper-cased) ticker with the parsed trade
price, replacing any previous override; an accepted sell leaves the
manual price map unchanged. -/
theorem buy_overwrites_manual_price_C10 (cfg : AppSettings) (form : TransactionForm)
    (nid : String) (ts : List Transaction) (prices : String → Option ℚ)
    (hg : ¬ (form.ticker = "" ∨ form.price = "" ∨ form.shares = "")) :
    (form.type = TradeType.buy →
      (handleAddTransaction cfg form nid ts prices).2
        = fun tk => if tk = form.ticker.toUpper then some (jsParseFloat form.price)
                    else prices tk) ∧
    (form.type = TradeType.sell →
      (handleAddTransaction cfg form nid ts prices).2 = prices) := by
  constructor
  · intro hb
    simp [handleAddTransaction, hg, hb]
  · intro hs
    simp [handleAddTransaction, hg, hs]

/-- C10 witness: appending the concrete buy form overwrites the price
entry of ticker AAPL with the parsed price. -/
theorem buy_overwrites_manual_price_C10_witness :
    ¬ (formBuy.ticker = "" ∨ formBuy.price = "" ∨ formBuy.shares = "") ∧
    ((handleAddTransaction DEFAULT_SETTINGS formBuy "9" [] (fun _ => none)).2
      = fun tk => if tk = formBuy.ticker.toUpper then some (jsParseFloat formBuy.price)
                  else none) :=
  ⟨by decide,
   (buy_overwrites_manual_price_C10 DEFAULT_SETTINGS formBuy "9" [] (fun _ => none)
      (by decide)).1 rfl⟩

/-! ### C7: realized figures persist across close / reopen cycles -/

/-- C7: processing a buy never changes any ticker's realized accumulator
(so closing and re-opening a position cannot reset it), and in the
concrete reopen scenario (buy 1000, sell 1200, buy 900, sell 800) the
final state has realizedPL 100, tradeCount 2 and the position closed. -/
theorem realized_persists_C7 :
    (∀ (s : ReplayState) (t : Transaction) (tk : String), t.type = TradeType.buy →
      rPL (processTransaction s t) tk = rPL s tk ∧
      rCostRetired (processTransaction s t) tk = rCostRetired s tk ∧
      rRevenue (processTransaction s t) tk = rRevenue s tk ∧
      rCount (processTransaction s t) tk = rCount s tk) ∧
    (rPL (replayAll exC7) "B" = 100 ∧ rCount (replayAll exC7) "B" = 2 ∧
      hShares (replayAll exC7) "B" = 0) := by
  constructor
  · intro s t tk hb
    by_cases he : tk = t.ticker
    · subst he
      refine ⟨?_, ?_, ?_, ?_⟩
      · rw [rPL_process_self, applyTrade_buy _ _ _ hb, realAt_pl]
      · rw [rCostRetired_process_self, applyTrade_buy _ _ _ hb, realAt_cost]
      · rw [rRevenue_process_self, applyTrade_buy _ _ _ hb, realAt_rev]
      · rw [rCount_process_self, applyTrade_buy _ _ _ hb, realAt_count]
    · exact ⟨rPL_process_ne s t tk he, rCostRetired_process_ne s t tk he,
        rRevenue_process_ne s t tk he, rCount_process_ne s t tk he⟩
  · norm_num [replayAll, sortedTrans, replayList, exC7, List.insertionSort,
      List.orderedInsert, dateLe, List.foldl, processTransaction, applyTrade,
      holdAt, realAt, normalizeHolding, initHolding, initRealized, initialState,
      hShares, rPL, rCount, epsilon]

/-- C7 witness: the buy-preserves-realized part evaluated at the empty
state and a concrete buy. -/
theorem realized_persists_C7_witness :
    rPL (processTransaction initialState tBuyEx) "A" = rPL initialState "A" ∧
    rCostRetired (processTransaction initialState tBuyEx) "A"
      = rCostRetired initialState "A" ∧
    rRevenue (processTransaction initialState tBuyEx) "A" = rRevenue initialState "A" ∧
    rCount (processTransaction initialState tBuyEx) "A" = rCount initialState "A" :=
  realized_persists_C7.1 initialState tBuyEx "A" rfl

/-! ### C9: the replay order is a stable chronological sort -/

theorem filter_orderedInsert_eqDate (t : Transaction) (d : Int) (ht : t.date = d)
    (l : List Transaction) :
    (List.orderedInsert dateLe t l).filter (fun x => x.date == d)
      = t :: l.filter (fun x => x.date == d) := by
  induction l with
  | nil => simp [List.orderedInsert, ht]
  | cons b l ih =>
    by_cases hb : dateLe t b
    · simp [List.orderedInsert, hb, ht]
    · have hbd : ¬ b.date = d := by
        have : ¬ t.date ≤ b.date := hb
        omega
      simp [List.orderedInsert, hb, hbd, ih]

theorem filter_orderedInsert_neDate (t : Transaction) (d : Int) (ht : ¬ t.date = d)
    (l : List Transaction) :
    (List.orderedInsert dateLe t l).filter (fun x => x.date == d)
      = l.filter (fun x => x.date == d) := by
  induction l with
  | nil => simp [List.orderedInsert, ht]
  | cons b l ih =>
    by_cases hb : dateLe t b
    · simp [List.orderedInsert, hb, ht]
    · by_cases hbd : b.date = d
      · simp [List.orderedInsert, hb, hbd, ih]
      · simp [List.orderedInsert, hb, hbd, ih]

theorem filter_sortedTrans_date (d : Int) (l : List Transaction) :
    (sortedTrans l).filter (fun x => x.date == d) = l.filter (fun x => x.date == d) := by
  induction l with
  | nil => rfl
  | cons t l ih =>
    by_cases ht : t.date = d
    · rw [sortedTrans, List.insertionSort]
      rw [filter_orderedInsert_eqDate t d ht]
      rw [show List.insertionSort dateLe l = sortedTrans l from rfl, ih]
      simp [ht]
    · rw [sortedTrans, List.insertionSort]
      rw [filter_orderedInsert_neDate t d ht]
      rw [show List.insertionSort dateLe l = sortedTrans l from rfl, ih]
      simp [ht]

/-- C9: the derivation replays the stable chronological sort of the log:
the sorted copy is a permutation of the input, ordered by ascending date,
and transactions of equal date keep their log insertion order (the
filtered subsequence at any date is unchanged).  The input list itself is
never mutated and the pass is deterministic, both by construction of the
pure model. -/
theorem replay_order_stable_sort_C9 (ts : List Transaction) :
    replayAll ts = replayList (sortedTrans ts) ∧
    List.Sorted dateLe (sortedTrans ts) ∧
    (sortedTrans ts).Perm ts ∧
    ∀ d : Int, (sortedTrans ts).filter (fun t => t.date == d)
      = ts.filter (fun t => t.date == d) :=
  ⟨rfl, List.sorted_insertionSort dateLe ts, List.perm_insertionSort dateLe ts,
   fun d => filter_sortedTrans_date d ts⟩

/-! ### C3: non-negativity and exact-zero normalization along the replay -/

theorem epsilon_pos : (0 : ℚ) < epsilon := by
  norm_num [epsilon]

theorem inv_step (s : ReplayState) (t : Transaction)
    (hbuy : t.type = TradeType.buy → 0 ≤ t.totalAmount)
    (hinv : ∀ tk, 0 ≤ hShares s tk ∧ 0 ≤ hCost s tk ∧
      (hShares s tk ≤ epsilon → hShares s tk = 0 ∧ hCost s tk = 0)) :
    ∀ tk, 0 ≤ hShares (processTransaction s t) tk ∧
      0 ≤ hCost (processTransaction s t) tk ∧
      (hShares (processTransaction s t) tk ≤ epsilon →
        hShares (processTransaction s t) tk = 0 ∧
        hCost (processTransaction s t) tk = 0) := by
  intro tk
  by_cases he : tk = t.ticker
  · rw [he]
    obtain ⟨hs0, hc0, _⟩ := hinv t.ticker
    rw [hShares_process_self, hCost_process_self, normalizeHolding_shares,
      normalizeHolding_cost]
    cases hty : t.type with
    | buy =>
      rw [applyTrade_buy _ _ _ hty]
      dsimp only
      rw [holdAt_shares, holdAt_cost]
      by_cases hle : hShares s t.ticker + t.shares ≤ epsilon
      · simp only [if_pos hle]
        simp
      · simp only [if_neg hle]
        have h1 : epsilon < hShares s t.ticker + t.shares := not_le.mp hle
        have h2 := hbuy hty
        refine ⟨?_, by linarith, fun hcon => absurd hcon hle⟩
        have := epsilon_pos
        linarith
    | sell =>
      by_cases hpos : 0 < hShares s t.ticker
      · rw [applyTrade_sell_pos _ _ _ hty (by rw [holdAt_shares]; exact hpos)]
        dsimp only
        rw [holdAt_shares, holdAt_cost]
        by_cases hle : hShares s t.ticker - t.shares ≤ epsilon
        · simp only [if_pos hle]
          simp
        · simp only [if_neg hle]
          have h1 : epsilon < hShares s t.ticker - t.shares := not_le.mp hle
          have heps := epsilon_pos
          refine ⟨by linarith, ?_, fun hcon => absurd hcon hle⟩
          have hsne : hShares s t.ticker ≠ 0 := ne_of_gt hpos
          have hkey : hCost s t.ticker - hCost s t.ticker / hShares s t.ticker * t.shares
              = hCost s t.ticker * (hShares s t.ticker - t.shares) / hShares s t.ticker := by
            field_simp
            ring
          rw [hkey]
          exact div_nonneg (mul_nonneg hc0 (by linarith)) (le_of_lt hpos)
      · rw [applyTrade_sell_nonpos _ _ _ hty (by rw [holdAt_shares]; exact hpos)]
        dsimp only
        rw [holdAt_shares, holdAt_cost]
        have hz0 : hShares s t.ticker ≤ epsilon := by
          have hzz : hShares s t.ticker = 0 := le_antisymm (not_lt.mp hpos) hs0
          rw [hzz]
          exact le_of_lt epsilon_pos
        simp only [if_pos hz0]
        simp
  · rw [hShares_process_ne s t tk he, hCost_process_ne s t tk he]
    exact hinv tk

theorem inv_fold (l : List Transaction) :
    ∀ (s : ReplayState),
      (∀ t ∈ l, t.type = TradeType.buy → 0 ≤ t.totalAmount) →
      (∀ tk, 0 ≤ hShares s tk ∧ 0 ≤ hCost s tk ∧
        (hShares s tk ≤ epsilon → hShares s tk = 0 ∧ hCost s tk = 0)) →
      ∀ tk, 0 ≤ hShares (l.foldl processTransaction s) tk ∧
        0 ≤ hCost (l.foldl processTransaction s) tk ∧
        (hShares (l.foldl processTransaction s) tk ≤ epsilon →
          hShares (l.foldl processTransaction s) tk = 0 ∧
          hCost (l.foldl processTransaction s) tk = 0) := by
  induction l with
  | nil => intro s _ hinv tk; exact hinv tk
  | cons t l ih =>
    intro s hl hinv tk
    have hmem : ∀ u ∈ l, u.type = TradeType.buy → 0 ≤ u.totalAmount :=
      fun u hu => hl u (List.mem_cons_of_mem t hu)
    have hstep := inv_step s t (hl t (List.mem_cons_self t l)) hinv
    exact ih (processTransaction s t) hmem hstep tk

theorem initialState_inv :
    ∀ tk, 0 ≤ hShares initialState tk ∧ 0 ≤ hCost initialState tk ∧
      (hShares initialState tk ≤ epsilon →
        hShares initialState tk = 0 ∧ hCost initialState tk = 0) := by
  intro tk
  refine ⟨le_refl 0, le_refl 0, fun _ => ⟨rfl, rfl⟩⟩

/-- C3: along the replay of any log of well-formed transactions (every
buy's stored settlement amount is non-negative, as the input boundary
guarantees since a buy settles at gross + fee), after each processed
transaction — that is, after any processed part l1 of the
chronologically sorted log — every ticker's open shares and cost basis
are non-negative, and whenever shares are within 1e-6 of zero both shares
and cost basis are exactly 0. -/
theorem replay_nonneg_normalization_C3 (ts l1 l2 : List Transaction)
    (hbuys : ∀ t ∈ ts, t.type = TradeType.buy → 0 ≤ t.totalAmount)
    (hsplit : sortedTrans ts = l1 ++ l2) (tk : String) :
    0 ≤ hShares (replayList l1) tk ∧ 0 ≤ hCost (replayList l1) tk ∧
    (hShares (replayList l1) tk ≤ epsilon →
      hShares (replayList l1) tk = 0 ∧ hCost (replayList l1) tk = 0) := by
  have hmem : ∀ t ∈ l1, t.type = TradeType.buy → 0 ≤ t.totalAmount := by
    intro t ht
    have h1 : t ∈ sortedTrans ts := by
      rw [hsplit]
      exact List.mem_append_left l2 ht
    exact hbuys t ((List.perm_insertionSort dateLe ts).mem_iff.mp h1)
  exact inv_fold l1 initialState hmem initialState_inv tk

/-- C3 witness: the invariant evaluated after the full four-transaction
reopen scenario. -/
theorem replay_nonneg_normalization_C3_witness :
    (∀ t ∈ exC7, t.type = TradeType.buy → 0 ≤ t.totalAmount) ∧
    sortedTrans exC7 = exC7 ++ [] ∧
    (0 ≤ hShares (replayList exC7) "B" ∧ 0 ≤ hCost (replayList exC7) "B" ∧
      (hShares (replayList exC7) "B" ≤ epsilon →
        hShares (replayList exC7) "B" = 0 ∧ hCost (replayList exC7) "B" = 0)) :=
  ⟨by decide, by decide,
   replay_nonneg_normalization_C3 exC7 exC7 [] (by decide) (by decide) "B"⟩

/-! ### C4: a sell against a zero position is a complete no-op -/

theorem inv0_step (s : ReplayState) (t : Transaction)
    (hinv : ∀ tk, 0 ≤ hShares s tk ∧
      (hShares s tk ≤ epsilon → hShares s tk = 0 ∧ hCost s tk = 0)) :
    ∀ tk, 0 ≤ hShares (processTransaction s t) tk ∧
      (hShares (processTransaction s t) tk ≤ epsilon →
        hShares (processTransaction s t) tk = 0 ∧
        hCost (processTransaction s t) tk = 0) := by
  intro tk
  by_cases he : tk = t.ticker
  · rw [he]
    obtain ⟨hs0, _⟩ := hinv t.ticker
    rw [hShares_process_self, hCost_process_self, normalizeHolding_shares,
      normalizeHolding_cost]
    cases hty : t.type with
    | buy =>
      rw [applyTrade_buy _ _ _ hty]
      dsimp only
      rw [holdAt_shares]
      by_cases hle : hShares s t.ticker + t.shares ≤ epsilon
      · simp only [if_pos hle]
        simp
      · simp only [if_neg hle]
        have h1 : epsilon < hShares s t.ticker + t.shares := not_le.mp hle
        have := epsilon_pos
        exact ⟨by linarith, fun hcon => absurd hcon hle⟩
    | sell =>
      by_cases hpos : 0 < hShares s t.ticker
      · rw [applyTrade_sell_pos _ _ _ hty (by rw [holdAt_shares]; exact hpos)]
        dsimp only
        rw [holdAt_shares]
        by_cases hle : hShares s t.ticker - t.shares ≤ epsilon
        · simp only [if_pos hle]
          simp
        · simp only [if_neg hle]
          have h1 : epsilon < hShares s t.ticker - t.shares := not_le.mp hle
          have := epsilon_pos
          exact ⟨by linarith, fun hcon => absurd hcon hle⟩
      · rw [applyTrade_sell_nonpos _ _ _ hty (by rw [holdAt_shares]; exact hpos)]
        dsimp only
        rw [holdAt_shares]
        have hz0 : hShares s t.ticker ≤ epsilon := by
          have hzz : hShares s t.ticker = 0 := le_antisymm (not_lt.mp hpos) hs0
          rw [hzz]
          exact le_of_lt epsilon_pos
        simp only [if_pos hz0]
        simp
  · rw [hShares_process_ne s t tk he, hCost_process_ne s t tk he]
    exact hinv tk

theorem inv0_fold (l : List Transaction) :
    ∀ (s : ReplayState),
      (∀ tk, 0 ≤ hShares s tk ∧
        (hShares s tk ≤ epsilon → hShares s tk = 0 ∧ hCost s tk = 0)) →
      ∀ tk, 0 ≤ hShares (l.foldl processTransaction s) tk ∧
        (hShares (l.foldl processTransaction s) tk ≤ epsilon →
          hShares (l.foldl processTransaction s) tk = 0 ∧
          hCost (l.foldl processTransaction s) tk = 0) := by
  induction l with
  | nil => intro s hinv tk; exact hinv tk
  | cons t l ih => intro s hinv tk; exact ih (processTransaction s t) (inv0_step s t hinv) tk

theorem replayList_inv0 (ts : List Transaction) :
    ∀ tk, 0 ≤ hShares (replayList ts) tk ∧
      (hShares (replayList ts) tk ≤ epsilon →
        hShares (replayList ts) tk = 0 ∧ hCost (replayList ts) tk = 0) :=
  inv0_fold ts initialState (fun _ => ⟨le_refl 0, fun _ => ⟨rfl, rfl⟩⟩)

/-- C4: a sell processed while its ticker's open shares are zero (no
prior buys, or an already-closed position) leaves that ticker's open
accumulator (shares, cost basis) and realized accumulator (realizedPL,
retired cost, revenue, tradeCount) all unchanged; in particular
tradeCount counts only cost-retiring sells. -/
theorem noop_sell_zero_position_C4 (ts : List Transaction) (t : Transaction)
    (hsell : t.type = TradeType.sell)
    (hzero : hShares (replayList ts) t.ticker = 0) :
    hShares (replayList (ts ++ [t])) t.ticker = hShares (replayList ts) t.ticker ∧
    hCost (replayList (ts ++ [t])) t.ticker = hCost (replayList ts) t.ticker ∧
    rPL (replayList (ts ++ [t])) t.ticker = rPL (replayList ts) t.ticker ∧
    rCostRetired (replayList (ts ++ [t])) t.ticker
      = rCostRetired (replayList ts) t.ticker ∧
    rRevenue (replayList (ts ++ [t])) t.ticker = rRevenue (replayList ts) t.ticker ∧
    rCount (replayList (ts ++ [t])) t.ticker = rCount (replayList ts) t.ticker := by
  have hfold : replayList (ts ++ [t]) = processTransaction (replayList ts) t := by
    rw [replayList, List.foldl_append]
    rfl
  have hcost0 : hCost (replayList ts) t.ticker = 0 :=
    (((replayList_inv0 ts) t.ticker).2 (by rw [hzero]; exact le_of_lt epsilon_pos)).2
  have hnpos : ¬ 0 < (holdAt (replayList ts) t).shares := by
    rw [holdAt_shares, hzero]
    exact lt_irrefl 0
  rw [hfold]
  refine ⟨?_, ?_, ?_, ?_, ?_, ?_⟩
  · rw [hShares_process_self, applyTrade_sell_nonpos _ _ _ hsell hnpos,
      normalizeHolding_shares, holdAt_shares, hzero]
    simp [le_of_lt epsilon_pos]
  · rw [hCost_process_self, applyTrade_sell_nonpos _ _ _ hsell hnpos,
      normalizeHolding_cost, holdAt_shares, hzero, hcost0]
    simp [le_of_lt epsilon_pos]
  · rw [rPL_process_self, applyTrade_sell_nonpos _ _ _ hsell hnpos, realAt_pl]
  · rw [rCostRetired_process_self, applyTrade_sell_nonpos _ _ _ hsell hnpos, realAt_cost]
  · rw [rRevenue_process_self, applyTrade_sell_nonpos _ _ _ hsell hnpos, realAt_rev]
  · rw [rCount_process_self, applyTrade_sell_nonpos _ _ _ hsell hnpos, realAt_count]

/-- C4 witness: a sell with no prior transactions at all (ticker never
seen) leaves every accumulator value unchanged. -/
theorem noop_sell_zero_position_C4_witness :
    tEx.type = TradeType.sell ∧
    hShares (replayList []) tEx.ticker = 0 ∧
    (hShares (replayList ([] ++ [tEx])) tEx.ticker = hShares (replayList []) tEx.ticker ∧
     hCost (replayList ([] ++ [tEx])) tEx.ticker = hCost (replayList []) tEx.ticker ∧
     rPL (replayList ([] ++ [tEx])) tEx.ticker = rPL (replayList []) tEx.ticker ∧
     rCostRetired (replayList ([] ++ [tEx])) tEx.ticker
       = rCostRetired (replayList []) tEx.ticker ∧
     rRevenue (replayList ([] ++ [tEx])) tEx.ticker = rRevenue (replayList []) tEx.ticker ∧
     rCount (replayList ([] ++ [tEx])) tEx.ticker = rCount (replayList []) tEx.ticker) :=
  ⟨rfl, by decide, noop_sell_zero_position_C4 [] tEx rfl (by decide)⟩

/-! ### C6: buy-only histories conserve shares and cost, above epsilon -/

theorem tickerShares_cons_eq (t : Transaction) (l : List Transaction)
    (he : t.ticker = tk) :
    tickerShares tk (t :: l) = t.shares + tickerShares tk l := by
  simp [tickerShares, he]

theorem tickerShares_cons_ne (t : Transaction) (l : List Transaction)
    (he : ¬ t.ticker = tk) :
    tickerShares tk (t :: l) = tickerShares tk l := by
  simp [tickerShares, he]

theorem tickerAmounts_cons_eq (t : Transaction) (l : List Transaction)
    (he : t.ticker = tk) :
    tickerAmounts tk (t :: l) = t.totalAmount + tickerAmounts tk l := by
  simp [tickerAmounts, he]

theorem tickerAmounts_cons_ne (t : Transaction) (l : List Transaction)
    (he : ¬ t.ticker = tk) :
    tickerAmounts tk (t :: l) = tickerAmounts tk l := by
  simp [tickerAmounts, he]

theorem buy_fold_aux (l : List Transaction) :
    ∀ (s : ReplayState) (tk : String),
      (∀ t ∈ l, t.ticker = tk → t.type = TradeType.buy ∧ epsilon < t.shares) →
      ((hShares s tk = 0 ∧ hCost s tk = 0) ∨ epsilon < hShares s tk) →
      hShares (l.foldl processTransaction s) tk = hShares s tk + tickerShares tk l ∧
      hCost (l.foldl processTransaction s) tk = hCost s tk + tickerAmounts tk l := by
  induction l with
  | nil => intro s tk _ _; simp [tickerShares, tickerAmounts]
  | cons t l ih =>
    intro s tk hl hclass
    by_cases he : t.ticker = tk
    · subst he
      obtain ⟨hbuy, hq⟩ := hl t (List.mem_cons_self t l) rfl
      have hs0 : 0 ≤ hShares s t.ticker := by
        rcases hclass with ⟨h1, _⟩ | h1
        · rw [h1]
        · exact le_of_lt (lt_trans epsilon_pos h1)
      have hnoclamp : ¬ (hShares s t.ticker + t.shares ≤ epsilon) := by
        intro hcon
        linarith
      have hsh : hShares (processTransaction s t) t.ticker
          = hShares s t.ticker + t.shares := by
        rw [hShares_process_self, normalizeHolding_shares, applyTrade_buy _ _ _ hbuy]
        dsimp only
        rw [holdAt_shares, if_neg hnoclamp]
      have hco : hCost (processTransaction s t) t.ticker
          = hCost s t.ticker + t.totalAmount := by
        rw [hCost_process_self, normalizeHolding_cost, applyTrade_buy _ _ _ hbuy]
        dsimp only
        rw [holdAt_shares, holdAt_cost, if_neg hnoclamp]
      have hl2 : ∀ u ∈ l, u.ticker = t.ticker →
          u.type = TradeType.buy ∧ epsilon < u.shares :=
        fun u hu => hl u (List.mem_cons_of_mem t hu)
      have hclass2 : (hShares (processTransaction s t) t.ticker = 0 ∧
          hCost (processTransaction s t) t.ticker = 0) ∨
          epsilon < hShares (processTransaction s t) t.ticker :=
        Or.inr (by rw [hsh]; linarith)
      obtain ⟨ihs, ihc⟩ := ih (processTransaction s t) t.ticker hl2 hclass2
      refine ⟨?_, ?_⟩
      · rw [List.foldl_cons, ihs, hsh, tickerShares_cons_eq t l rfl]
        ring
      · rw [List.foldl_cons, ihc, hco, tickerAmounts_cons_eq t l rfl]
        ring
    · have hne : tk ≠ t.ticker := fun hcon => he hcon.symm
      have hl2 : ∀ u ∈ l, u.ticker = tk →
          u.type = TradeType.buy ∧ epsilon < u.shares :=
        fun u hu => hl u (List.mem_cons_of_mem t hu)
      obtain ⟨ihs, ihc⟩ := ih (processTransaction s t) tk hl2
        (by rwa [hShares_process_ne s t tk hne, hCost_process_ne s t tk hne])
      refine ⟨?_, ?_⟩
      · rw [List.foldl_cons, ihs, hShares_process_ne s t tk hne,
          tickerShares_cons_ne t l he]
      · rw [List.foldl_cons, ihc, hCost_process_ne s t tk hne,
          tickerAmounts_cons_ne t l he]

/-- C6 counterexample: a single buy of 0.0000001 shares (settling at 5) is
zeroed by the epsilon normalization, so the final shares and cost basis do
NOT equal the sums of buy share counts and settlements. -/
theorem tiny_buy_C6_cex :
    (∀ t ∈ [tTiny], t.ticker = "C" → t.type = TradeType.buy) ∧
    hShares (replayAll [tTiny]) "C" ≠ tickerShares "C" [tTiny] ∧
    hCost (replayAll [tTiny]) "C" ≠ tickerAmounts "C" [tTiny] := by
  refine ⟨by decide, ?_, ?_⟩ <;>
    norm_num [replayAll, sortedTrans, List.insertionSort, List.orderedInsert,
      replayList, List.foldl, processTransaction, applyTrade, holdAt, realAt,
      initialState, initHolding, initRealized, normalizeHolding, hShares, hCost,
      epsilon, tTiny, tickerShares, tickerAmounts]

/-- C6 amended: for a ticker with only buy transactions, each with share
count above the 1e-6 epsilon (so the normalization never zeroes the
accumulators), the full replay ends with that ticker's cost basis equal to
the sum of its buy settlement amounts and its shares equal to the sum of
its buy share counts. -/
theorem buy_only_conservation_C6_amended (ts : List Transaction) (tk : String)
    (hbuy : ∀ t ∈ ts, t.ticker = tk → t.type = TradeType.buy)
    (hq : ∀ t ∈ ts, t.ticker = tk → epsilon < t.shares) :
    hShares (replayAll ts) tk = tickerShares tk ts ∧
    hCost (replayAll ts) tk = tickerAmounts tk ts := by
  have hperm : List.Perm (sortedTrans ts) ts := List.perm_insertionSort dateLe ts
  have hl : ∀ t ∈ sortedTrans ts, t.ticker = tk →
      t.type = TradeType.buy ∧ epsilon < t.shares := by
    intro t ht hk
    have hmem : t ∈ ts := hperm.mem_iff.mp ht
    exact ⟨hbuy t hmem hk, hq t hmem hk⟩
  obtain ⟨h1, h2⟩ := buy_fold_aux (sortedTrans ts) initialState tk hl
    (Or.inl ⟨rfl, rfl⟩)
  have hsum1 : tickerShares tk (sortedTrans ts) = tickerShares tk ts :=
    List.Perm.sum_eq ((hperm.filter (fun t => t.ticker == tk)).map (fun t => t.shares))
  have hsum2 : tickerAmounts tk (sortedTrans ts) = tickerAmounts tk ts :=
    List.Perm.sum_eq ((hperm.filter (fun t => t.ticker == tk)).map (fun t => t.totalAmount))
  constructor
  · rw [replayAll, replayList] at *
    rw [h1, hsum1]
    exact zero_add _
  · rw [replayAll, replayList] at *
    rw [h2, hsum2]
    exact zero_add _

/-- C6 witness: the conservation identity for a single ordinary 10-share
buy. -/
theorem buy_only_conservation_C6_witness :
    (∀ t ∈ [tBuyEx], t.ticker = "A" → t.type = TradeType.buy) ∧
    (∀ t ∈ [tBuyEx], t.ticker = "A" → epsilon < t.shares) ∧
    (hShares (replayAll [tBuyEx]) "A" = tickerShares "A" [tBuyEx] ∧
     hCost (replayAll [tBuyEx]) "A" = tickerAmounts "A" [tBuyEx]) :=
  ⟨by decide, by norm_num [tBuyEx, epsilon],
   buy_only_conservation_C6_amended [tBuyEx] "A" (by decide)
     (by norm_num [tBuyEx, epsilon])⟩

end StockApp
